import Mathlib

/-!
Verification of the early-boot bump allocator
(`modules/bump_allocator/src/lib.rs`) and of the mmap / openat syscall path
(`exercises/sys_map/src/syscall.rs`).

The Rust `usize` type is modelled as natural numbers together with explicit
wrapping (mod `2^64`) at every arithmetic step, matching release-mode wrapping
semantics; bitwise operations are modelled by `Nat.land` with the 64-bit
complement written out.  External collaborators of the mmap handler (address
space, file descriptor table) are opaque parameters gathered in `Env`; the
POSIX file read/seek surface, which the handler calls but whose code is not
part of the analysed sources, is modelled from the specification.
-/

namespace BumpVerify

/-- Number of values of the 64-bit `usize` type, i.e. `2 ^ 64`. -/
def W : Nat := 18446744073709551616

/-- Wrapping `usize` addition. -/
def wadd (a b : Nat) : Nat := (a + b) % W

/-- Wrapping `usize` subtraction. -/
def wsub (a b : Nat) : Nat := (a + (W - b % W)) % W

/-- Wrapping `usize` multiplication. -/
def wmul (a b : Nat) : Nat := (a * b) % W

/-- Bitwise `usize` complement (`!x` on 64 bits). -/
def wnot (a : Nat) : Nat := W - 1 - a % W

/-- Rounding up to a multiple of `a`, as the spec's `round_up(x, a)`. -/
def roundUp (x a : Nat) : Nat := (x + a - 1) / a * a

/-- The Rust alignment expression `(x + a - 1) & !(a - 1)` over `usize`. -/
def rustAlignUp (x a : Nat) : Nat :=
  Nat.land (wsub (wadd x a) 1) (wnot (wsub a 1))

/-- State of `EarlyAllocator`: the five `usize` fields of the struct. -/
structure EAState where
  start : Nat
  size : Nat
  b_pos : Nat
  p_pos : Nat
  count : Nat
deriving DecidableEq

/-- The `allocator::AllocError` variant produced by this module. -/
inductive AllocError where
  | NoMemory
deriving DecidableEq

/-- Type `allocator::AllocResult` specialised to the payloads used here. -/
inductive AllocResult (α : Type) where
  | ok (val : α)
  | err (e : AllocError)
deriving DecidableEq

/-- Constructor `EarlyAllocator::new()`. -/
def newEA : EAState := { start := 0, size := 0, b_pos := 0, p_pos := 0, count := 0 }

/-- Method `BaseAllocator::init(start, size)`. -/
def initEA (start size : Nat) : EAState :=
  { start := start, size := size, b_pos := start, p_pos := wadd start size, count := 0 }

/-- Method `BaseAllocator::add_memory(start, size)`: rejects extents past the original
ceiling, otherwise sets `p_pos = start + size`. -/
def addMemory (s : EAState) (start size : Nat) : EAState × AllocResult Unit :=
  if wadd start size > wadd s.start s.size then (s, .err .NoMemory)
  else ({ s with p_pos := wadd start size }, .ok ())

/-- Method `ByteAllocator::alloc(layout)` with `size = layout.size()`,
`align = layout.align()`: the state mutation and the returned address.  The
final `NonNull::new(aligned_pos as *mut u8).unwrap()` is modelled separately by
`allocPanics`. -/
def alloc (s : EAState) (size align : Nat) : EAState × AllocResult Nat :=
  let aligned_pos := rustAlignUp s.b_pos align
  if wadd aligned_pos size > s.p_pos then (s, .err .NoMemory)
  else ({ s with b_pos := wadd aligned_pos size, count := wadd s.count 1 },
        .ok aligned_pos)

/-- Method `ByteAllocator::alloc` panics exactly when the capacity check passes but
`aligned_pos` is the null address `0`, making `NonNull::new(..).unwrap()` fail. -/
def allocPanics (s : EAState) (size align : Nat) : Prop :=
  ¬ (wadd (rustAlignUp s.b_pos align) size > s.p_pos) ∧ rustAlignUp s.b_pos align = 0

instance (s : EAState) (size align : Nat) : Decidable (allocPanics s size align) := by
  unfold allocPanics
  infer_instance

/-- Method `ByteAllocator::dealloc(pos, layout)`: both arguments are ignored. -/
def dealloc (s : EAState) : EAState :=
  let c := if s.count > 0 then s.count - 1 else s.count
  if c = 0 then { s with count := c, b_pos := s.start } else { s with count := c }

/-- Method `PageAllocator::alloc_pages(num_pages, align_pow2)` with page size `SIZE`. -/
def allocPages (SIZE : Nat) (s : EAState) (numPages alignPow2 : Nat) :
    EAState × AllocResult Nat :=
  let required := wmul numPages SIZE
  if required > wsub s.p_pos s.b_pos then (s, .err .NoMemory)
  else
    let unaligned := wsub s.p_pos required
    let aligned := Nat.land unaligned (wnot (wsub alignPow2 1))
    if aligned < s.b_pos then (s, .err .NoMemory)
    else ({ s with p_pos := aligned }, .ok aligned)

/-- Method `PageAllocator::dealloc_pages(pos, num_pages)` with page size `SIZE`. -/
def deallocPages (SIZE : Nat) (s : EAState) (pos numPages : Nat) : EAState :=
  let required := wmul numPages SIZE
  if wadd pos required > s.p_pos then s
  else { s with p_pos := wadd pos required }

/-- One allocator operation of the kinds quantified over by the invariant claims. -/
inductive EAOp where
  | opAlloc (size align : Nat)
  | opDealloc
  | opAllocPages (numPages alignPow2 : Nat)
deriving DecidableEq

/-- State after one operation (the `&mut self` effect; results are discarded). -/
def stepOp (SIZE : Nat) (s : EAState) : EAOp → EAState
  | .opAlloc size align => (alloc s size align).1
  | .opDealloc => dealloc s
  | .opAllocPages n a => (allocPages SIZE s n a).1

/-- State after a sequence of operations. -/
def runOps (SIZE : Nat) (s : EAState) : List EAOp → EAState
  | [] => s
  | op :: rest => runOps SIZE (stepOp SIZE s op) rest

/-- The allocator exclusivity invariant `start ≤ b_pos ≤ p_pos ≤ start + size`. -/
def Inv (s : EAState) : Prop :=
  s.start ≤ s.b_pos ∧ s.b_pos ≤ s.p_pos ∧ s.p_pos ≤ s.start + s.size

instance (s : EAState) : Decidable (Inv s) := by
  unfold Inv
  infer_instance

/-- Side conditions on one operation: an `alloc` carries a power-of-two align
(the invariant of `core::alloc::Layout`) and is small enough, relative to the
extent ceiling `ceil = start + size`, that no `usize` computation overflows. -/
def OpOk (ceil : Nat) : EAOp → Prop
  | .opAlloc size align => (∃ k, k < 64 ∧ align = 2 ^ k) ∧ ceil + align + size ≤ W
  | .opDealloc => True
  | .opAllocPages _ _ => True

/-- Side conditions for the byte-zone claims: only `alloc`/`dealloc` operations,
and every `alloc` requests at least one byte. -/
def ByteOpOk (ceil : Nat) : EAOp → Prop
  | .opAlloc size align =>
      1 ≤ size ∧ (∃ k, k < 64 ∧ align = 2 ^ k) ∧ ceil + align + size ≤ W
  | .opDealloc => True
  | .opAllocPages _ _ => False

/-- Strengthened internal invariant used in the trace inductions. -/
def InvFull (s : EAState) : Prop := Inv s ∧ s.start + s.size < W

/-- Internal invariant for the byte-zone counting claims. -/
def InvB (s : EAState) : Prop :=
  InvFull s ∧ s.count + s.start ≤ s.b_pos ∧ (s.count = 0 ↔ s.b_pos = s.start)

/-- A file as seen through the opaque POSIX surface: byte size and cursor. -/
structure FileSt where
  size : Nat
  pos : Nat
deriving DecidableEq

/-- Linux errno values surfaced by the syscall layer. -/
inductive LinuxError where
  | EINVAL
  | ENOMEM
  | EBADF
  | EFAULT
  | EAGAIN
  | ENOSYS
deriving DecidableEq

/-- Numeric errno of each error, as in the Linux errno table. -/
def LinuxError.toCode : LinuxError → Int
  | .EINVAL => 22
  | .ENOMEM => 12
  | .EBADF => 9
  | .EFAULT => 14
  | .EAGAIN => 11
  | .ENOSYS => 38

/-- The `axerrno::AxError` values distinguished by the mmap handler. -/
inductive AxError where
  | NoMemory
  | InvalidInput
  | Other
deriving DecidableEq

/-- The handler's translation of address-space errors to Linux errors. -/
def linuxErrOfAx : AxError → LinuxError
  | .NoMemory => .ENOMEM
  | .InvalidInput => .EINVAL
  | .Other => .EAGAIN

/-- Result of the mmap handler before the `syscall_body` integer encoding. -/
inductive MmapRet where
  | ok (addr : Nat)
  | err (e : LinuxError)
deriving DecidableEq

/-- Whether an `MmapRet` is a success. -/
def MmapRet.isOk : MmapRet → Bool
  | .ok _ => true
  | .err _ => false

/-- Result of `aspace.map_alloc`. -/
inductive AxResult where
  | ok
  | err (e : AxError)
deriving DecidableEq

/-- Result of `get_file_like(fd)`. -/
inductive FileRes where
  | ok (f : FileSt)
  | err (e : LinuxError)
deriving DecidableEq

/-- The internal `MappingFlags` capability set built from `prot`. -/
structure MappingFlagsM where
  user : Bool
  read : Bool
  write : Bool
  execute : Bool
deriving DecidableEq

/-- Constant `memory_addr::PAGE_SIZE_4K`. -/
def PAGE_SIZE_4K : Nat := 4096

/-- Recognized `MmapProt` bits: `PROT_READ | PROT_WRITE | PROT_EXEC`. -/
def MMAP_PROT_MASK : Nat := 1 ||| 2 ||| 4

/-- Flag `MmapFlags::MAP_FIXED`. -/
def MAP_FIXED : Nat := 16

/-- Flag `MmapFlags::MAP_ANONYMOUS`. -/
def MAP_ANONYMOUS : Nat := 32

/-- Recognized `MmapFlags` bits:
`MAP_SHARED | MAP_PRIVATE | MAP_FIXED | MAP_ANONYMOUS | MAP_NORESERVE | MAP_STACK`. -/
def MMAP_FLAGS_MASK : Nat := 1 ||| 2 ||| 16 ||| 32 ||| 0x4000 ||| 0x20000

/-- Conversion `impl From<MmapProt> for MappingFlags`: always `USER`, plus
read/write/execute according to the protection bits. -/
def mappingFlagsOfProt (prot : Nat) : MappingFlagsM :=
  { user := true,
    read := Nat.land prot 1 != 0,
    write := Nat.land prot 2 != 0,
    execute := Nat.land prot 4 != 0 }

/-- Opaque collaborators of `sys_mmap`: the locked address space
(`base`, `size`, `find_free_area`, `map_alloc`, `write`) and the file table
(`get_file_like`).  Each is an arbitrary function, so theorems quantifying over
`Env` hold for every behaviour of the external layers. -/
structure Env where
  base : Nat
  asize : Nat
  findFree : Nat → Nat → Nat × Nat → Option Nat
  mapAlloc : Nat → Nat → MappingFlagsM → Bool → AxResult
  writeOk : Nat → Nat → Bool
  fileOf : Int → FileRes

/-- Modelled from the spec: the opaque POSIX surface's `lseek(fd, o, SEEK_SET)`
sets the cursor to `o` when non-negative and otherwise fails leaving the cursor
unchanged (the handler discards the result either way). -/
def seekSet (f : FileSt) (o : Int) : FileSt :=
  if o < 0 then f else { f with pos := o.toNat }

/-- Modelled from the spec: one `file_like.read(buf)` on the opaque POSIX
surface returns `min(buf.len, size - pos)` bytes (0 at or past end of file). -/
def readAmount (f : FileSt) (len : Nat) : Nat := min len (f.size - f.pos)

/-- The handler's read loop `while total_read < length { .. }`, with structural
fuel; each iteration either breaks on a zero-byte read or reads at least one
byte, so fuel `length + 1` never runs out. -/
def readLoopFuel : Nat → FileSt → Nat → Nat → FileSt × Nat
  | 0, f, total, _ => (f, total)
  | fuel + 1, f, total, length =>
    if total < length then
      let n := readAmount f (length - total)
      if n = 0 then (f, total)
      else readLoopFuel fuel { f with pos := f.pos + n } (total + n) length
    else (f, total)

/-- The read loop started at `total_read = 0`: final file state and `total_read`. -/
def readLoop (f : FileSt) (length : Nat) : FileSt × Nat :=
  readLoopFuel (length + 1) f 0 length

/-- The file-population phase of `sys_mmap`: save the cursor and seek to
`offset` when `offset ≠ 0`, run the read loop, then restore the saved cursor. -/
def mmapFileRead (f : FileSt) (length : Nat) (offset : Int) : FileSt × Nat :=
  if offset ≠ 0 then
    let saved : Int := (f.pos : Int)
    let r := readLoop (seekSet f offset) length
    (seekSet r.1 saved, r.2)
  else
    readLoop f length

/-- Observable outcome of one `sys_mmap` call: the returned value, whether a
mapping was installed (`map_alloc` succeeded), the length passed to the
address-space layer, the final state of the used descriptor, and the number of
bytes copied into the mapping. -/
structure MmapOut where
  ret : MmapRet
  mapped : Bool
  mappedLen : Nat
  file : Option FileSt
  written : Nat
deriving DecidableEq

/-- Outcome of an early validation failure: error return, nothing mapped. -/
def mmapErr (e : LinuxError) : MmapOut :=
  { ret := .err e, mapped := false, mappedLen := 0, file := none, written := 0 }

/-- The Rust expression `(length + PAGE_SIZE_4K - 1) & !(PAGE_SIZE_4K - 1)` over `usize`. -/
def alignedLength (length : Nat) : Nat := rustAlignUp length PAGE_SIZE_4K

/-- Target-address resolution: `MAP_FIXED` demands a 4K-aligned `addr`; the
hint path searches a free area within the address-space limit. -/
def resolveAddr (env : Env) (addr alignedLen flags : Nat) : MmapRet :=
  if Nat.land flags MAP_FIXED ≠ 0 then
    if addr % PAGE_SIZE_4K ≠ 0 then .err .EINVAL else .ok addr
  else
    match env.findFree addr alignedLen (env.base, env.asize) with
    | none => .err .ENOMEM
    | some a => .ok a

/-- Handler `sys_mmap(addr, length, prot, flags, fd, offset)` over the opaque `Env`. -/
def sysMmap (env : Env) (addr length prot flags : Nat) (fd offset : Int) : MmapOut :=
  if Nat.land flags MMAP_FLAGS_MASK ≠ flags then mmapErr .EINVAL
  else if Nat.land prot MMAP_PROT_MASK ≠ prot then mmapErr .EINVAL
  else if alignedLength length = 0 then mmapErr .EINVAL
  else
    match resolveAddr env addr (alignedLength length) flags with
    | .err e => mmapErr e
    | .ok startAddr =>
      if Nat.land flags MAP_ANONYMOUS ≠ 0 then
        match env.mapAlloc startAddr (alignedLength length) (mappingFlagsOfProt prot) true with
        | .err e => mmapErr (linuxErrOfAx e)
        | .ok =>
          { ret := .ok startAddr, mapped := true, mappedLen := alignedLength length,
            file := none, written := 0 }
      else if fd < 0 then mmapErr .EBADF
      else
        match env.fileOf fd with
        | .err e => mmapErr e
        | .ok f =>
          match env.mapAlloc startAddr (alignedLength length) (mappingFlagsOfProt prot) true with
          | .err e => mmapErr (linuxErrOfAx e)
          | .ok =>
            let fr := mmapFileRead f length offset
            if env.writeOk startAddr fr.2 then
              { ret := .ok startAddr, mapped := true, mappedLen := alignedLength length,
                file := some fr.1, written := fr.2 }
            else
              { ret := .err .EFAULT, mapped := true, mappedLen := alignedLength length,
                file := some fr.1, written := fr.2 }

/-- The `AT_FDCWD` sentinel. -/
def AT_FDCWD : Int := -100

/-- Handler `sys_openat(dfd, ..)`: `assert_eq!(dfd, AT_FDCWD)` then the underlying
open; `openRes` stands for the opaque result of `api::sys_open`, and `none`
models the assertion panic. -/
def sysOpenat (openRes : Int) (dfd : Int) : Option Int :=
  if dfd = AT_FDCWD then some openRes else none

/-- A concrete environment used by the witness theorems. -/
def testEnv : Env :=
  { base := 1048576, asize := 1048576,
    findFree := fun _ _ _ => some 2097152,
    mapAlloc := fun _ _ _ _ => .ok,
    writeOk := fun _ _ => true,
    fileOf := fun _ => .ok { size := 100, pos := 7 } }

/-- A concrete operation sequence used by the invariant witness theorems. -/
def opsW : List EAOp := [.opAlloc 16 8, .opAllocPages 1 4096, .opDealloc]

/-- A concrete byte-operation sequence used by the byte-zone witness theorem. -/
def opsB : List EAOp := [.opAlloc 16 8, .opAlloc 32 1, .opDealloc, .opDealloc]

/-! ## Arithmetic helper lemmas -/

theorem W_eq : W = 2 ^ 64 := by norm_num [W]

theorem wadd_eq {a b : Nat} (h : a + b < W) : wadd a b = a + b :=
  Nat.mod_eq_of_lt h

theorem wsub_eq {a b : Nat} (hb : b ≤ a) (ha : a < W) : wsub a b = a - b := by
  simp only [wsub, W] at *
  omega

theorem wmul_eq {a b : Nat} (h : a * b < W) : wmul a b = a * b :=
  Nat.mod_eq_of_lt h

theorem wnot_eq {a : Nat} (h : a < W) : wnot a = W - 1 - a := by
  simp only [wnot, W] at *
  omega

theorem wchain_eq {b a : Nat} (h1 : 1 ≤ b + a) (h2 : b + a ≤ W) :
    wsub (wadd b a) 1 = b + a - 1 := by
  simp only [wadd, wsub, W] at *
  omega

theorem two_pow_sub_two_pow_eq (n k : Nat) (h : k ≤ n) :
    2 ^ n - 2 ^ k = (2 ^ (n - k) - 1) <<< k := by
  rw [Nat.shiftLeft_eq, Nat.sub_mul, one_mul, ← Nat.pow_add]
  congr 2
  omega

theorem land_high_mask {x n k : Nat} (hk : k ≤ n) (hx : x < 2 ^ n) :
    Nat.land x (2 ^ n - 2 ^ k) = x - x % 2 ^ k := by
  have hxd : x - x % 2 ^ k = (x >>> k) <<< k := by
    rw [Nat.shiftRight_eq_div_pow, Nat.shiftLeft_eq]
    have h := Nat.div_add_mod x (2 ^ k)
    rw [Nat.mul_comm] at h
    omega
  apply Nat.eq_of_testBit_eq
  intro i
  show (x &&& (2 ^ n - 2 ^ k)).testBit i = (x - x % 2 ^ k).testBit i
  rw [Nat.testBit_land, two_pow_sub_two_pow_eq n k hk, hxd, Nat.testBit_shiftLeft,
    Nat.testBit_shiftLeft, Nat.testBit_shiftRight, Nat.testBit_two_pow_sub_one]
  by_cases hik : k ≤ i
  · have hrw : k + (i - k) = i := by omega
    rw [hrw]
    by_cases hin : i < n
    · have hkn : i - k < n - k := by omega
      simp [hik, hkn, ge_iff_le]
    · have h1 : ¬ (i - k < n - k) := by omega
      have h2 : x.testBit i = false :=
        Nat.testBit_eq_false_of_lt
          (lt_of_lt_of_le hx (Nat.pow_le_pow_right (by norm_num) (by omega)))
      simp [hik, h1, h2, ge_iff_le]
  · simp [hik, ge_iff_le]

theorem roundUp_eq_sub (x a : Nat) (ha : 0 < a) :
    roundUp x a = (x + a - 1) - (x + a - 1) % a := by
  unfold roundUp
  have h := Nat.div_add_mod (x + a - 1) a
  rw [Nat.mul_comm] at h
  omega

theorem le_roundUp (x a : Nat) (ha : 0 < a) : x ≤ roundUp x a := by
  rw [roundUp_eq_sub x a ha]
  have := Nat.mod_lt (x + a - 1) ha
  omega

theorem roundUp_le (x a : Nat) (ha : 0 < a) : roundUp x a ≤ x + a - 1 := by
  rw [roundUp_eq_sub x a ha]
  omega

theorem rustAlignUp_eq_roundUp {x k : Nat} (hk : k < 64) (hx : x + 2 ^ k ≤ W) :
    rustAlignUp x (2 ^ k) = roundUp x (2 ^ k) := by
  have ha : 0 < 2 ^ k := Nat.two_pow_pos k
  have haW : 2 ^ k < W := by
    rw [W_eq]
    exact Nat.pow_lt_pow_right (by norm_num) hk
  have hchain : wsub (wadd x (2 ^ k)) 1 = x + 2 ^ k - 1 :=
    wchain_eq (by omega) hx
  have hsub1 : wsub (2 ^ k) 1 = 2 ^ k - 1 := wsub_eq (by omega) haW
  have hnot : wnot (2 ^ k - 1) = W - 2 ^ k := by
    rw [wnot_eq (by omega)]
    omega
  have hxlt : x + 2 ^ k - 1 < 2 ^ 64 := by
    rw [← W_eq]
    omega
  rw [rustAlignUp, hchain, hsub1, hnot, W_eq,
    land_high_mask (by omega) hxlt, roundUp_eq_sub x (2 ^ k) ha]

/-! ## Allocator lemmas -/

theorem invFull_mk {st sz b p c : Nat} (h1 : st ≤ b) (h2 : b ≤ p) (h3 : p ≤ st + sz)
    (h4 : st + sz < W) : InvFull (⟨st, sz, b, p, c⟩ : EAState) :=
  ⟨⟨h1, h2, h3⟩, h4⟩

theorem alloc_spec {s : EAState} {size align k : Nat} (hk : k < 64) (ha : align = 2 ^ k)
    (hb : s.b_pos + align ≤ W) (hs : roundUp s.b_pos align + size < W) :
    (roundUp s.b_pos align + size > s.p_pos → alloc s size align = (s, .err .NoMemory)) ∧
    (roundUp s.b_pos align + size ≤ s.p_pos →
      alloc s size align
        = ({ s with b_pos := roundUp s.b_pos align + size, count := wadd s.count 1 },
           .ok (roundUp s.b_pos align))) := by
  subst ha
  have hr : rustAlignUp s.b_pos (2 ^ k) = roundUp s.b_pos (2 ^ k) :=
    rustAlignUp_eq_roundUp hk hb
  have hw : wadd (roundUp s.b_pos (2 ^ k)) size = roundUp s.b_pos (2 ^ k) + size :=
    wadd_eq hs
  constructor <;> intro hc <;> simp only [alloc, hr, hw]
  · rw [if_pos hc]
  · rw [if_neg (by omega)]

theorem alloc_fst_invFull {s : EAState} {size align : Nat} (h : InvFull s)
    (hk : ∃ k, k < 64 ∧ align = 2 ^ k) (hbound : s.start + s.size + align + size ≤ W) :
    InvFull (alloc s size align).1 := by
  obtain ⟨k, hk64, rfl⟩ := hk
  obtain ⟨⟨h1, h2, h3⟩, h4⟩ := h
  have hpos : 0 < 2 ^ k := Nat.two_pow_pos k
  have hble : s.b_pos + 2 ^ k ≤ W := by omega
  have hle : roundUp s.b_pos (2 ^ k) ≤ s.b_pos + 2 ^ k - 1 := roundUp_le _ _ hpos
  have hge : s.b_pos ≤ roundUp s.b_pos (2 ^ k) := le_roundUp _ _ hpos
  have hs : roundUp s.b_pos (2 ^ k) + size < W := by omega
  have hspec := alloc_spec hk64 rfl hble hs
  by_cases hc : roundUp s.b_pos (2 ^ k) + size > s.p_pos
  · rw [hspec.1 hc]
    exact ⟨⟨h1, h2, h3⟩, h4⟩
  · rw [hspec.2 (by omega)]
    exact invFull_mk (by omega) (by omega) (by omega) (by omega)

theorem dealloc_invFull {s : EAState} (h : InvFull s) : InvFull (dealloc s) := by
  obtain ⟨⟨h1, h2, h3⟩, h4⟩ := h
  simp only [dealloc]
  split <;> split <;> exact invFull_mk (by omega) (by omega) (by omega) (by omega)

theorem allocPages_fst_invFull {SIZE : Nat} {s : EAState} {n a : Nat} (h : InvFull s) :
    InvFull (allocPages SIZE s n a).1 := by
  obtain ⟨⟨h1, h2, h3⟩, h4⟩ := h
  simp only [allocPages]
  by_cases hc1 : wmul n SIZE > wsub s.p_pos s.b_pos
  · rw [if_pos hc1]
    exact ⟨⟨h1, h2, h3⟩, h4⟩
  · rw [if_neg hc1]
    have hsub : wsub s.p_pos s.b_pos = s.p_pos - s.b_pos := wsub_eq h2 (by omega)
    have hunal : wsub s.p_pos (wmul n SIZE) = s.p_pos - wmul n SIZE :=
      wsub_eq (by omega) (by omega)
    have hland : Nat.land (wsub s.p_pos (wmul n SIZE)) (wnot (wsub a 1))
        ≤ wsub s.p_pos (wmul n SIZE) := Nat.and_le_left
    by_cases hc2 : Nat.land (wsub s.p_pos (wmul n SIZE)) (wnot (wsub a 1)) < s.b_pos
    · rw [if_pos hc2]
      exact ⟨⟨h1, h2, h3⟩, h4⟩
    · rw [if_neg hc2]
      exact invFull_mk (by omega) (by omega) (by omega) (by omega)

theorem stepOp_start_size (SIZE : Nat) (s : EAState) (op : EAOp) :
    (stepOp SIZE s op).start = s.start ∧ (stepOp SIZE s op).size = s.size := by
  cases op with
  | opAlloc size align =>
    simp only [stepOp, alloc]
    split <;> exact ⟨rfl, rfl⟩
  | opDealloc =>
    simp only [stepOp, dealloc]
    split <;> split <;> exact ⟨rfl, rfl⟩
  | opAllocPages n a =>
    simp only [stepOp, allocPages]
    split
    · exact ⟨rfl, rfl⟩
    · split <;> exact ⟨rfl, rfl⟩

theorem runOps_invFull (SIZE : Nat) :
    ∀ (ops : List EAOp) (s : EAState), InvFull s →
      (∀ op ∈ ops, OpOk (s.start + s.size) op) → InvFull (runOps SIZE s ops) := by
  intro ops
  induction ops with
  | nil => exact fun s h _ => h
  | cons op rest ih =>
    intro s h hops
    have hop := hops op (List.mem_cons_self op rest)
    have hstep : InvFull (stepOp SIZE s op) := by
      cases op with
      | opAlloc size align =>
        obtain ⟨hk, hb⟩ := hop
        exact alloc_fst_invFull h hk hb
      | opDealloc => exact dealloc_invFull h
      | opAllocPages n a => exact allocPages_fst_invFull h
    have heq := stepOp_start_size SIZE s op
    apply ih (stepOp SIZE s op) hstep
    intro op2 hmem
    rw [heq.1, heq.2]
    exact hops op2 (List.mem_cons_of_mem _ hmem)

/-- C1 (amended): after `init(start, size)` with `start + size < 2^64`, every
sequence of `alloc` / `dealloc` / `alloc_pages` operations — each `alloc` with a
power-of-two align and small enough that no `usize` computation overflows —
keeps the invariant `start ≤ b_pos ≤ p_pos ≤ start + size`, and whenever
`alloc` or `alloc_pages` fails with `NoMemory` the state is unchanged.  The
original claim is false for `add_memory` and `dealloc_pages`, which can succeed
while lowering `p_pos` below `b_pos` (see the counterexample and C2). -/
theorem C1_invariant_amended :
    (∀ (SIZE start size : Nat) (ops : List EAOp), start + size < W →
        (∀ op ∈ ops, OpOk (start + size) op) →
        Inv (runOps SIZE (initEA start size) ops)) ∧
    (∀ (s : EAState) (size align : Nat) (e : AllocError),
        (alloc s size align).2 = .err e → (alloc s size align).1 = s) ∧
    (∀ (SIZE : Nat) (s : EAState) (n a : Nat) (e : AllocError),
        (allocPages SIZE s n a).2 = .err e → (allocPages SIZE s n a).1 = s) := by
  refine ⟨?_, ?_, ?_⟩
  · intro SIZE start size ops hW hops
    have hinit : InvFull (initEA start size) := by
      have hWn : start + size < W := hW
      refine ⟨⟨le_refl _, ?_, ?_⟩, hW⟩ <;> (simp only [initEA, wadd, W] at *; omega)
    exact (runOps_invFull SIZE ops (initEA start size) hinit hops).1
  · intro s size align e h
    by_cases hc : wadd (rustAlignUp s.b_pos align) size > s.p_pos
    · simp [alloc, hc]
    · simp [alloc, hc] at h
  · intro SIZE s n a e h
    by_cases hc1 : wmul n SIZE > wsub s.p_pos s.b_pos
    · simp [allocPages, hc1]
    · by_cases hc2 : Nat.land (wsub s.p_pos (wmul n SIZE)) (wnot (wsub a 1)) < s.b_pos
      · simp [allocPages, hc1, hc2]
      · simp [allocPages, hc1, hc2] at h

/-- C1 witness: a concrete init plus a concrete `alloc`, `alloc_pages`,
`dealloc` trace through which the amended theorem yields the invariant. -/
theorem C1_invariant_amended_witness :
    (1000 + 8192 < W) ∧ Inv (runOps 4096 (initEA 1000 8192) opsW) := by
  refine ⟨by decide, C1_invariant_amended.1 4096 1000 8192 opsW (by decide) ?_⟩
  intro op hop
  simp only [opsW, List.mem_cons, List.not_mem_nil, or_false] at hop
  rcases hop with rfl | rfl | rfl
  · exact ⟨⟨3, by omega, rfl⟩, by decide⟩
  · trivial
  · trivial

/-- C1 counterexample: from `init(1000, 8192)`, after one successful byte
allocation (`b_pos = 5100`), `add_memory(1000, 4000)` succeeds (`Ok`) yet sets
`p_pos = 5000 < b_pos`, so the operation neither failed nor preserved the
claimed invariant. -/
theorem C1_counterexample :
    addMemory (alloc (initEA 1000 8192) 4100 1).1 1000 4000
      = (⟨1000, 8192, 5100, 5000, 1⟩, .ok ()) ∧
    ¬ ((⟨1000, 8192, 5100, 5000, 1⟩ : EAState).b_pos
        ≤ (⟨1000, 8192, 5100, 5000, 1⟩ : EAState).p_pos) := by decide

/-- C2 (amended): `dealloc_pages(pos, num_pages)` is a no-op exactly when
`pos + num_pages * SIZE > p_pos`; whenever `pos + num_pages * SIZE ≤ p_pos`
(not only on exact equality with `p_pos`) it sets `p_pos` to
`pos + num_pages * SIZE`, so a call whose block end lies strictly below `p_pos`
lowers `p_pos` instead of leaving the state unchanged. -/
theorem C2_deallocPages_amended (SIZE : Nat) (s : EAState) (pos num : Nat)
    (h : pos + num * SIZE < W) :
    (pos + num * SIZE > s.p_pos → deallocPages SIZE s pos num = s) ∧
    (pos + num * SIZE ≤ s.p_pos →
      deallocPages SIZE s pos num = { s with p_pos := pos + num * SIZE }) := by
  have hm : wmul num SIZE = num * SIZE := wmul_eq (by omega)
  have ha : wadd pos (num * SIZE) = pos + num * SIZE := wadd_eq h
  constructor <;> intro hc <;> simp only [deallocPages, hm, ha]
  · rw [if_pos hc]
  · rw [if_neg (by omega)]

/-- C2 counterexample: from `init(0, 8192)` (so `p_pos = 8192`) with
`SIZE = 4096`, the call `dealloc_pages(0, 1)` has block end `4096 ≠ p_pos`, so
the claim demands a no-op; the code instead changes the state (it lowers
`p_pos` to `4096`). -/
theorem C2_counterexample :
    (0 + 1 * 4096 ≠ (initEA 0 8192).p_pos) ∧
    deallocPages 4096 (initEA 0 8192) 0 1 ≠ initEA 0 8192 := by decide

/-- C2 witness: the amended theorem applied to the same concrete call. -/
theorem C2_witness :
    (0 + 1 * 4096 < W) ∧
    deallocPages 4096 (initEA 0 8192) 0 1
      = { initEA 0 8192 with p_pos := 0 + 1 * 4096 } :=
  ⟨by decide,
   (C2_deallocPages_amended 4096 (initEA 0 8192) 0 1 (by decide)).2 (by decide)⟩

/-- C6 (amended): for a valid layout (`align = 2^k` with no usize overflow) and
`round_up(b_pos, align) ≠ 0`, `alloc(size, align)` fails with `NoMemory`
leaving the state unchanged when `round_up(b_pos, align) + size > p_pos`, and
otherwise advances `b_pos` to `round_up(b_pos, align) + size`, increments
`count`, and returns `round_up(b_pos, align)`, in both cases without panicking.
When `round_up(b_pos, align) = 0` (possible only with `b_pos = 0`) the original
claim fails: the capacity check can pass and the `NonNull::new(0).unwrap()`
panics instead of returning (see the counterexample). -/
theorem C6_alloc_amended (s : EAState) (size k : Nat) (hk : k < 64)
    (hb : s.b_pos + 2 ^ k ≤ W) (hs : roundUp s.b_pos (2 ^ k) + size < W)
    (hcnt : s.count + 1 < W) (hnz : roundUp s.b_pos (2 ^ k) ≠ 0) :
    (roundUp s.b_pos (2 ^ k) + size > s.p_pos →
      alloc s size (2 ^ k) = (s, .err .NoMemory) ∧ ¬ allocPanics s size (2 ^ k)) ∧
    (roundUp s.b_pos (2 ^ k) + size ≤ s.p_pos →
      alloc s size (2 ^ k)
          = ({ s with b_pos := roundUp s.b_pos (2 ^ k) + size, count := s.count + 1 },
             .ok (roundUp s.b_pos (2 ^ k))) ∧ ¬ allocPanics s size (2 ^ k)) := by
  have hr : rustAlignUp s.b_pos (2 ^ k) = roundUp s.b_pos (2 ^ k) :=
    rustAlignUp_eq_roundUp hk hb
  have hw : wadd (roundUp s.b_pos (2 ^ k)) size = roundUp s.b_pos (2 ^ k) + size :=
    wadd_eq hs
  have hc1 : wadd s.count 1 = s.count + 1 := wadd_eq hcnt
  have hspec := alloc_spec hk rfl hb hs
  have hpan : ¬ allocPanics s size (2 ^ k) := by
    simp only [allocPanics, hr, hw]
    intro hp
    exact hnz hp.2
  constructor <;> intro hcond
  · exact ⟨hspec.1 hcond, hpan⟩
  · refine ⟨?_, hpan⟩
    rw [hspec.2 hcond, hc1]

/-- C6 counterexample: from `init(0, 4096)` the zero-size, align-1 allocation
request passes the capacity check (`round_up(0, 1) + 0 = 0 ≤ p_pos`), so the
claim demands a successful return of `round_up(b_pos, align) = 0`; instead the
implementation panics on `NonNull::new(0).unwrap()`. -/
theorem C6_counterexample :
    allocPanics (initEA 0 4096) 0 1 ∧
    ¬ (roundUp (initEA 0 4096).b_pos 1 + 0 > (initEA 0 4096).p_pos) := by decide

/-- C6 witness: the amended theorem applied to a concrete successful call. -/
theorem C6_witness :
    roundUp 1000 8 + 16 ≤ 9192 ∧
    (alloc ⟨1000, 8192, 1000, 9192, 0⟩ 16 8
        = (⟨1000, 8192, 1016, 9192, 1⟩, .ok 1000) ∧
      ¬ allocPanics ⟨1000, 8192, 1000, 9192, 0⟩ 16 8) :=
  ⟨by decide,
   (C6_alloc_amended ⟨1000, 8192, 1000, 9192, 0⟩ 16 3 (by omega) (by decide)
      (by decide) (by decide) (by decide)).2 (by decide)⟩

theorem allocPages_ok_shape {SIZE : Nat} {s s1 : EAState} {n a r : Nat}
    (h : allocPages SIZE s n a = (s1, .ok r)) :
    s1 = { s with p_pos := r } ∧ s.b_pos ≤ r ∧
    wmul n SIZE ≤ wsub s.p_pos s.b_pos ∧
    r = Nat.land (wsub s.p_pos (wmul n SIZE)) (wnot (wsub a 1)) := by
  by_cases hc1 : wmul n SIZE > wsub s.p_pos s.b_pos
  · simp [allocPages, hc1] at h
  · by_cases hc2 : Nat.land (wsub s.p_pos (wmul n SIZE)) (wnot (wsub a 1)) < s.b_pos
    · simp [allocPages, hc1, hc2] at h
    · simp only [allocPages] at h
      rw [if_neg hc1, if_neg hc2] at h
      simp only [Prod.mk.injEq, AllocResult.ok.injEq] at h
      obtain ⟨hA, hB⟩ := h
      refine ⟨?_, by omega, by omega, hB.symm⟩
      rw [← hA, hB]

/-- C7 (amended): `alloc_pages` never returns an address below the current
`b_pos`; and of two consecutive successful calls the second returns a strictly
smaller address whenever the second call requests a nonzero number of bytes
without usize overflow (`0 < num_pages * SIZE < 2^64`).  With `num_pages = 0`
the original claim fails: two consecutive successful calls can return the same
address (see the counterexample). -/
theorem C7_allocPages_amended (SIZE : Nat) (s : EAState) (n1 a1 : Nat) :
    (∀ s1 r, allocPages SIZE s n1 a1 = (s1, .ok r) → s.b_pos ≤ r) ∧
    (∀ n2 a2 s1 r1 s2 r2, s.b_pos < W →
        allocPages SIZE s n1 a1 = (s1, .ok r1) →
        allocPages SIZE s1 n2 a2 = (s2, .ok r2) →
        0 < n2 * SIZE → n2 * SIZE < W → r2 < r1) := by
  constructor
  · intro s1 r h
    exact (allocPages_ok_shape h).2.1
  · intro n2 a2 s1 r1 s2 r2 hbW h1 h2 hpos hlt
    obtain ⟨hs1, hge1, hreq1, hr1⟩ := allocPages_ok_shape h1
    subst hs1
    obtain ⟨hs2, hge2, hreq2, hr2⟩ := allocPages_ok_shape h2
    have hm2 : wmul n2 SIZE = n2 * SIZE := wmul_eq hlt
    have hr1W : r1 < W := by
      have hy : wnot (wsub a1 1) < W := by
        simp only [wnot, W]
        omega
      have hle : r1 ≤ wnot (wsub a1 1) := hr1 ▸ Nat.and_le_right
      omega
    have hreq2n : wmul n2 SIZE ≤ wsub r1 s.b_pos := hreq2
    have hwsub1 : wsub r1 s.b_pos = r1 - s.b_pos := wsub_eq hge1 hr1W
    rw [hm2, hwsub1] at hreq2n
    have hun : wsub r1 (wmul n2 SIZE) = r1 - n2 * SIZE := by
      rw [hm2]
      exact wsub_eq (by omega) hr1W
    have hr2n : r2 = Nat.land (wsub r1 (wmul n2 SIZE)) (wnot (wsub a2 1)) := hr2
    have hland2 : r2 ≤ r1 - n2 * SIZE := by
      rw [hr2n, hun]
      exact Nat.and_le_left
    omega

/-- C7 counterexample: from `init(0, 8192)` with `SIZE = 4096`, the call
`alloc_pages(0, 1)` succeeds returning `8192` and leaves the state unchanged,
so the immediately following identical call also succeeds returning `8192`:
two consecutive successful calls whose addresses do not strictly decrease. -/
theorem C7_counterexample :
    allocPages 4096 (initEA 0 8192) 0 1 = (initEA 0 8192, .ok 8192) ∧
    ¬ ((8192 : Nat) < 8192) := by decide

/-- C7 witness: the amended theorem applied to two concrete one-page calls. -/
theorem C7_witness :
    (0 < 1 * 4096) ∧
    allocPages 4096 (initEA 0 8192) 1 1 = (⟨0, 8192, 0, 4096, 0⟩, .ok 4096) ∧
    (0 : Nat) < 4096 :=
  ⟨by decide, by decide,
   (C7_allocPages_amended 4096 (initEA 0 8192) 1 1).2 1 1 ⟨0, 8192, 0, 4096, 0⟩ 4096
     ⟨0, 8192, 0, 0, 0⟩ 0 (by decide) (by decide) (by decide) (by decide) (by decide)⟩

theorem invB_mk {st sz b p c : Nat} (h1 : st ≤ b) (h2 : b ≤ p) (h3 : p ≤ st + sz)
    (h4 : st + sz < W) (h5 : c + st ≤ b) (h6 : c = 0 ↔ b = st) :
    InvB (⟨st, sz, b, p, c⟩ : EAState) :=
  ⟨⟨⟨h1, h2, h3⟩, h4⟩, h5, h6⟩

theorem alloc_fst_invB {s : EAState} {size align : Nat} (h : InvB s)
    (hsz : 1 ≤ size) (hk : ∃ k, k < 64 ∧ align = 2 ^ k)
    (hbound : s.start + s.size + align + size ≤ W) :
    InvB (alloc s size align).1 := by
  obtain ⟨k, hk64, rfl⟩ := hk
  obtain ⟨⟨⟨h1, h2, h3⟩, h4⟩, h5, h6⟩ := h
  have hpos : 0 < 2 ^ k := Nat.two_pow_pos k
  have hble : s.b_pos + 2 ^ k ≤ W := by omega
  have hle : roundUp s.b_pos (2 ^ k) ≤ s.b_pos + 2 ^ k - 1 := roundUp_le _ _ hpos
  have hge : s.b_pos ≤ roundUp s.b_pos (2 ^ k) := le_roundUp _ _ hpos
  have hs : roundUp s.b_pos (2 ^ k) + size < W := by omega
  have hspec := alloc_spec hk64 rfl hble hs
  by_cases hc : roundUp s.b_pos (2 ^ k) + size > s.p_pos
  · rw [hspec.1 hc]
    exact ⟨⟨⟨h1, h2, h3⟩, h4⟩, h5, h6⟩
  · rw [hspec.2 (by omega)]
    have hcw : wadd s.count 1 = s.count + 1 := wadd_eq (by omega)
    rw [hcw]
    exact invB_mk (by omega) (by omega) (by omega) (by omega) (by omega) (by omega)

theorem dealloc_invB {s : EAState} (h : InvB s) : InvB (dealloc s) := by
  obtain ⟨⟨⟨h1, h2, h3⟩, h4⟩, h5, h6⟩ := h
  simp only [dealloc]
  split <;> split <;>
    exact invB_mk (by omega) (by omega) (by omega) (by omega) (by omega) (by omega)

theorem runOps_invB (SIZE : Nat) :
    ∀ (ops : List EAOp) (s : EAState), InvB s →
      (∀ op ∈ ops, ByteOpOk (s.start + s.size) op) → InvB (runOps SIZE s ops) := by
  intro ops
  induction ops with
  | nil => exact fun s h _ => h
  | cons op rest ih =>
    intro s h hops
    have hop := hops op (List.mem_cons_self op rest)
    have hstep : InvB (stepOp SIZE s op) := by
      cases op with
      | opAlloc size align =>
        obtain ⟨hsz, hk, hb⟩ := hop
        exact alloc_fst_invB h hsz hk hb
      | opDealloc => exact dealloc_invB h
      | opAllocPages n a => exact hop.elim
    have heq := stepOp_start_size SIZE s op
    apply ih (stepOp SIZE s op) hstep
    intro op2 hmem
    rw [heq.1, heq.2]
    exact hops op2 (List.mem_cons_of_mem _ hmem)

theorem runOps_start_size (SIZE : Nat) :
    ∀ (ops : List EAOp) (s : EAState),
      (runOps SIZE s ops).start = s.start ∧ (runOps SIZE s ops).size = s.size := by
  intro ops
  induction ops with
  | nil => exact fun s => ⟨rfl, rfl⟩
  | cons op rest ih =>
    intro s
    have h1 := ih (stepOp SIZE s op)
    have h2 := stepOp_start_size SIZE s op
    exact ⟨h1.1.trans h2.1, h1.2.trans h2.2⟩

/-- C8 (amended): after `init(start, size)` (with `start + size < 2^64`), for
every sequence of `alloc` / `dealloc` calls in which each `alloc` requests at
least one byte with a valid power-of-two align and no usize overflow,
`count = 0` holds if and only if `b_pos = start`.  The original claim fails for
zero-size allocations, which increment `count` while leaving `b_pos = start`
(see the counterexample). -/
theorem C8_count_iff_amended (SIZE start size : Nat) (ops : List EAOp)
    (hW : start + size < W) (hops : ∀ op ∈ ops, ByteOpOk (start + size) op) :
    ((runOps SIZE (initEA start size) ops).count = 0 ↔
      (runOps SIZE (initEA start size) ops).b_pos = start) := by
  have hww : wadd start size = start + size := wadd_eq hW
  have hinit : InvB (initEA start size) :=
    invB_mk (le_refl _) (by omega) (by omega) hW (by omega) (by omega)
  have hfin := runOps_invB SIZE ops (initEA start size) hinit hops
  have hst := (runOps_start_size SIZE ops (initEA start size)).1
  have hiff := hfin.2.2
  rw [hst] at hiff
  exact hiff

/-- C8 counterexample: from `init(1000, 8192)` the single zero-size allocation
`alloc(0, 1)` succeeds, reaching a state with `count = 1` and `b_pos = start`,
which violates `count = 0 ⇔ b_pos = start`. -/
theorem C8_counterexample :
    runOps 4096 (initEA 1000 8192) [.opAlloc 0 1] = ⟨1000, 8192, 1000, 9192, 1⟩ ∧
    ¬ ((⟨1000, 8192, 1000, 9192, 1⟩ : EAState).count = 0 ↔
        (⟨1000, 8192, 1000, 9192, 1⟩ : EAState).b_pos = 1000) := by decide

/-- C8 witness: the amended theorem on a concrete trace of two one-byte-or-more
allocations followed by two deallocations. -/
theorem C8_witness :
    (1000 + 8192 < W) ∧
    ((runOps 4096 (initEA 1000 8192) opsB).count = 0 ↔
      (runOps 4096 (initEA 1000 8192) opsB).b_pos = 1000) := by
  refine ⟨by decide, C8_count_iff_amended 4096 1000 8192 opsB (by decide) ?_⟩
  intro op hop
  simp only [opsB, List.mem_cons, List.not_mem_nil, or_false] at hop
  rcases hop with rfl | rfl | rfl | rfl
  · exact ⟨by omega, ⟨3, by omega, rfl⟩, by decide⟩
  · exact ⟨by omega, ⟨0, by omega, rfl⟩, by decide⟩
  · trivial
  · trivial

/-! ## mmap lemmas -/

theorem readLoopFuel_pos :
    ∀ (fuel : Nat) (f : FileSt) (total length : Nat),
      (readLoopFuel fuel f total length).1.pos + total
        = f.pos + (readLoopFuel fuel f total length).2 := by
  intro fuel
  induction fuel with
  | zero =>
    intro f total length
    simp [readLoopFuel]
  | succ n ih =>
    intro f total length
    simp only [readLoopFuel]
    split
    · split
      · simp
      · have h2 : (readLoopFuel n { f with pos := f.pos + readAmount f (length - total) }
              (total + readAmount f (length - total)) length).1.pos
              + (total + readAmount f (length - total))
            = (f.pos + readAmount f (length - total))
              + (readLoopFuel n { f with pos := f.pos + readAmount f (length - total) }
                  (total + readAmount f (length - total)) length).2 :=
          ih { f with pos := f.pos + readAmount f (length - total) }
            (total + readAmount f (length - total)) length
        omega
    · simp

theorem readLoop_pos (f : FileSt) (length : Nat) :
    (readLoop f length).1.pos = f.pos + (readLoop f length).2 := by
  have h := readLoopFuel_pos (length + 1) f 0 length
  simpa [readLoop] using h

theorem mmapFileRead_pos_of_ne (f : FileSt) (length : Nat) (offset : Int)
    (h : offset ≠ 0) : (mmapFileRead f length offset).1.pos = f.pos := by
  simp only [mmapFileRead, if_pos h]
  show (seekSet (readLoop (seekSet f offset) length).1 (f.pos : Int)).pos = f.pos
  have hnn : ¬ ((f.pos : Int) < 0) := by omega
  rw [seekSet, if_neg hnn]
  show ((f.pos : Int)).toNat = f.pos
  omega

theorem mmapFileRead_zero (f : FileSt) (length : Nat) :
    mmapFileRead f length 0 = readLoop f length := by
  simp [mmapFileRead]

theorem sysMmap_file_shape (env : Env) (addr length prot flags : Nat) (fd offset : Int)
    (f : FileSt) (hanon : Nat.land flags MAP_ANONYMOUS = 0)
    (hf : env.fileOf fd = .ok f)
    (hok : (sysMmap env addr length prot flags fd offset).ret.isOk = true) :
    (sysMmap env addr length prot flags fd offset).file
        = some (mmapFileRead f length offset).1 ∧
    (sysMmap env addr length prot flags fd offset).written
        = (mmapFileRead f length offset).2 := by
  by_cases h1 : Nat.land flags MMAP_FLAGS_MASK ≠ flags
  · simp [sysMmap, h1, mmapErr, MmapRet.isOk] at hok
  by_cases h2 : Nat.land prot MMAP_PROT_MASK ≠ prot
  · simp [sysMmap, h1, h2, mmapErr, MmapRet.isOk] at hok
  by_cases h3 : alignedLength length = 0
  · simp [sysMmap, h1, h2, h3, mmapErr, MmapRet.isOk] at hok
  rcases hr : resolveAddr env addr (alignedLength length) flags with a | e
  · by_cases h4 : fd < 0
    · simp [sysMmap, h1, h2, h3, hr, hanon, h4, mmapErr, MmapRet.isOk] at hok
    rcases hm : env.mapAlloc a (alignedLength length) (mappingFlagsOfProt prot) true
        with _ | e2
    · simp only [sysMmap, h1, h2, h3, hr, hanon, h4, hf, hm, if_neg, if_false,
        ite_false, ite_true] at hok ⊢
      simp [hanon] at hok ⊢
      split <;> exact ⟨rfl, rfl⟩
    · simp [sysMmap, h1, h2, h3, hr, hanon, h4, hf, hm, mmapErr, MmapRet.isOk] at hok
  · simp [sysMmap, h1, h2, h3, hr, mmapErr, MmapRet.isOk] at hok

theorem sysMmap_mappedLen (env : Env) (addr length prot flags : Nat) (fd offset : Int)
    (hmap : (sysMmap env addr length prot flags fd offset).mapped = true) :
    (sysMmap env addr length prot flags fd offset).mappedLen = alignedLength length := by
  by_cases h1 : Nat.land flags MMAP_FLAGS_MASK ≠ flags
  · simp [sysMmap, h1, mmapErr] at hmap
  by_cases h2 : Nat.land prot MMAP_PROT_MASK ≠ prot
  · simp [sysMmap, h1, h2, mmapErr] at hmap
  by_cases h3 : alignedLength length = 0
  · simp [sysMmap, h1, h2, h3, mmapErr] at hmap
  rcases hr : resolveAddr env addr (alignedLength length) flags with a | e
  · by_cases ha : Nat.land flags MAP_ANONYMOUS ≠ 0
    · rcases hm : env.mapAlloc a (alignedLength length) (mappingFlagsOfProt prot) true
          with _ | e2
      · simp [sysMmap, h1, h2, h3, hr, ha, hm]
      · simp [sysMmap, h1, h2, h3, hr, ha, hm, mmapErr] at hmap
    · by_cases h4 : fd < 0
      · simp [sysMmap, h1, h2, h3, hr, ha, h4, mmapErr] at hmap
      rcases hff : env.fileOf fd with f | e2
      · rcases hm : env.mapAlloc a (alignedLength length) (mappingFlagsOfProt prot) true
            with _ | e2
        · simp only [sysMmap, h1, h2, h3, hr, hff, hm] at hmap ⊢
          simp [ha, h4] at hmap ⊢
          split <;> rfl
        · simp [sysMmap, h1, h2, h3, hr, ha, h4, hff, hm, mmapErr] at hmap
      · simp [sysMmap, h1, h2, h3, hr, ha, h4, hff, mmapErr] at hmap
  · simp [sysMmap, h1, h2, h3, hr, mmapErr] at hmap

theorem alignedLength_eq (length : Nat) (h : length < W) :
    alignedLength length = roundUp length PAGE_SIZE_4K % W := by
  have hWv : W = 18446744073709551616 := rfl
  have h2pow : (4096 : Nat) = 2 ^ 12 := by norm_num
  by_cases hc : length + 4096 ≤ W
  · have hb : length + 2 ^ 12 ≤ W := by omega
    have hru : rustAlignUp length (2 ^ 12) = roundUp length (2 ^ 12) :=
      rustAlignUp_eq_roundUp (by omega) hb
    have hle : roundUp length (2 ^ 12) ≤ length + 2 ^ 12 - 1 :=
      roundUp_le _ _ (Nat.two_pow_pos 12)
    have hWmod : roundUp length (2 ^ 12) < W := by omega
    show rustAlignUp length PAGE_SIZE_4K = roundUp length PAGE_SIZE_4K % W
    rw [show PAGE_SIZE_4K = 2 ^ 12 from by norm_num [PAGE_SIZE_4K], hru,
      Nat.mod_eq_of_lt hWmod]
  · have hch : wsub (wadd length PAGE_SIZE_4K) 1 = length + 4095 - W := by
      simp only [wadd, wsub, PAGE_SIZE_4K, W]
      omega
    have hnot : wnot (wsub PAGE_SIZE_4K 1) = W - 4096 := by decide
    have hyW : length + 4095 - W < 2 ^ 64 := by
      rw [← W_eq]
      omega
    have hland : Nat.land (length + 4095 - W) (W - 4096)
        = (length + 4095 - W) - (length + 4095 - W) % 2 ^ 12 := by
      have hm : W - 4096 = 2 ^ 64 - 2 ^ 12 := by norm_num [W]
      rw [hm]
      exact land_high_mask (by omega) hyW
    have hmod : (length + 4095 - W) % 2 ^ 12 = length + 4095 - W :=
      Nat.mod_eq_of_lt (by omega)
    have hzero : alignedLength length = 0 := by
      rw [alignedLength, rustAlignUp, hch, hnot, hland, hmod]
      omega
    have hr0 : roundUp length PAGE_SIZE_4K % W = 0 := by
      simp only [roundUp, PAGE_SIZE_4K, W]
      omega
    rw [hzero, hr0]

/-- C3: whenever the aligned length is zero, or `prot` or `flags` contain a bit
outside the recognized bitsets, or `MAP_FIXED` is set with a non-4K-aligned
address, `sys_mmap` returns `EINVAL` and installs no mapping (for every
behaviour of the opaque address-space and file layers). -/
theorem C3_einval_no_mapping (env : Env) (addr length prot flags : Nat) (fd offset : Int)
    (h : alignedLength length = 0 ∨ Nat.land prot MMAP_PROT_MASK ≠ prot ∨
         Nat.land flags MMAP_FLAGS_MASK ≠ flags ∨
         (Nat.land flags MAP_FIXED ≠ 0 ∧ addr % PAGE_SIZE_4K ≠ 0)) :
    (sysMmap env addr length prot flags fd offset).ret = .err .EINVAL ∧
    (sysMmap env addr length prot flags fd offset).mapped = false := by
  by_cases h1 : Nat.land flags MMAP_FLAGS_MASK ≠ flags
  · simp [sysMmap, h1, mmapErr]
  by_cases h2 : Nat.land prot MMAP_PROT_MASK ≠ prot
  · simp [sysMmap, h1, h2, mmapErr]
  by_cases h3 : alignedLength length = 0
  · simp [sysMmap, h1, h2, h3, mmapErr]
  rcases h with h | h | h | ⟨hfx, hal⟩
  · exact absurd h h3
  · exact absurd h h2
  · exact absurd h h1
  · simp [sysMmap, h1, h2, h3, resolveAddr, hfx, hal, mmapErr]

/-- C3 witness: a zero-length request through the concrete environment. -/
theorem C3_witness :
    (alignedLength 0 = 0 ∨ Nat.land 0 MMAP_PROT_MASK ≠ 0 ∨
      Nat.land 34 MMAP_FLAGS_MASK ≠ 34 ∨
      (Nat.land 34 MAP_FIXED ≠ 0 ∧ 0 % PAGE_SIZE_4K ≠ 0)) ∧
    ((sysMmap testEnv 0 0 0 34 (-1) 0).ret = .err .EINVAL ∧
      (sysMmap testEnv 0 0 0 34 (-1) 0).mapped = false) :=
  ⟨Or.inl (by decide), C3_einval_no_mapping testEnv 0 0 0 34 (-1) 0 (Or.inl (by decide))⟩

/-- C4: for every successful file-backed `sys_mmap` with `offset ≠ 0`, the file
cursor after the call equals the cursor before it: the handler saves the
position, seeks to `offset`, reads, and seeks back to the saved position. -/
theorem C4_cursor_preserved (env : Env) (addr length prot flags : Nat) (fd offset : Int)
    (f : FileSt) (hanon : Nat.land flags MAP_ANONYMOUS = 0) (hoff : offset ≠ 0)
    (hf : env.fileOf fd = .ok f)
    (hok : (sysMmap env addr length prot flags fd offset).ret.isOk = true) :
    (sysMmap env addr length prot flags fd offset).file.map FileSt.pos = some f.pos := by
  obtain ⟨h1, _⟩ := sysMmap_file_shape env addr length prot flags fd offset f hanon hf hok
  rw [h1]
  show some (mmapFileRead f length offset).1.pos = some f.pos
  rw [mmapFileRead_pos_of_ne f length offset hoff]

/-- C4 witness: a concrete successful file-backed call with `offset = 10` on a
file whose cursor is at 7; the final cursor is again 7. -/
theorem C4_witness :
    ((10 : Int) ≠ 0) ∧
    (sysMmap testEnv 0 50 3 2 3 10).file.map FileSt.pos = some 7 :=
  ⟨by decide,
   C4_cursor_preserved testEnv 0 50 3 2 3 10 ⟨100, 7⟩ (by decide) (by decide)
     (by decide) (by decide)⟩

/-- C5: lengths in `[1, 4095]` are rounded to exactly one 4K page; in general
the aligned length equals `round_up(length, 4096)` reduced modulo `2^64`, the
handler returns `EINVAL` whenever that value is zero, and any installed mapping
uses exactly the aligned length. -/
theorem C5_length_alignment (env : Env) (addr length prot flags : Nat) (fd offset : Int)
    (hlen : length < W) :
    (1 ≤ length → length ≤ 4095 → alignedLength length = 4096) ∧
    alignedLength length = roundUp length PAGE_SIZE_4K % W ∧
    (roundUp length PAGE_SIZE_4K % W = 0 →
      (sysMmap env addr length prot flags fd offset).ret = .err .EINVAL) ∧
    ((sysMmap env addr length prot flags fd offset).mapped = true →
      (sysMmap env addr length prot flags fd offset).mappedLen = alignedLength length) := by
  have heq := alignedLength_eq length hlen
  have hWv : W = 18446744073709551616 := rfl
  refine ⟨?_, heq, ?_, fun hm => sysMmap_mappedLen env addr length prot flags fd offset hm⟩
  · intro hge hle
    rw [heq]
    simp only [roundUp, PAGE_SIZE_4K, W]
    omega
  · intro h0
    have hz : alignedLength length = 0 := by rw [heq, h0]
    by_cases h1 : Nat.land flags MMAP_FLAGS_MASK ≠ flags
    · simp [sysMmap, h1, mmapErr]
    by_cases h2 : Nat.land prot MMAP_PROT_MASK ≠ prot
    · simp [sysMmap, h1, h2, mmapErr]
    simp [sysMmap, h1, h2, hz, mmapErr]

/-- C5 witness: the theorem at the concrete length 5. -/
theorem C5_witness :
    ((5 : Nat) < W) ∧
    ((1 ≤ 5 → 5 ≤ 4095 → alignedLength 5 = 4096) ∧
      alignedLength 5 = roundUp 5 PAGE_SIZE_4K % W ∧
      (roundUp 5 PAGE_SIZE_4K % W = 0 →
        (sysMmap testEnv 0 5 0 0 0 0).ret = .err .EINVAL) ∧
      ((sysMmap testEnv 0 5 0 0 0 0).mapped = true →
        (sysMmap testEnv 0 5 0 0 0 0).mappedLen = alignedLength 5)) :=
  ⟨by decide, C5_length_alignment testEnv 0 5 0 0 0 0 (by decide)⟩

/-- C9: `sys_openat` asserts `dfd = AT_FDCWD = -100` — for any other value the
assertion panics (modelled as `none`) rather than returning an error, and for
`dfd = -100` the call proceeds to the underlying open, whose result it returns. -/
theorem C9_openat_assert (openRes dfd : Int) :
    (dfd ≠ AT_FDCWD → sysOpenat openRes dfd = none) ∧
    (dfd = AT_FDCWD → sysOpenat openRes dfd = some openRes) := by
  constructor <;> intro h <;> simp [sysOpenat, h]

/-- C9 witness: a non-`AT_FDCWD` descriptor panics, `AT_FDCWD` passes through. -/
theorem C9_witness :
    ((-7 : Int) ≠ AT_FDCWD) ∧ sysOpenat 5 (-7) = none ∧
    sysOpenat 5 AT_FDCWD = some 5 :=
  ⟨by decide, (C9_openat_assert 5 (-7)).1 (by decide),
   (C9_openat_assert 5 AT_FDCWD).2 rfl⟩

/-- C10: for every successful file-backed `sys_mmap` with `offset = 0`, the
cursor is neither saved nor restored: the final cursor equals the initial one
advanced by exactly the `total_read` bytes consumed by the read loop. -/
theorem C10_cursor_advances (env : Env) (addr length prot flags : Nat) (fd : Int)
    (f : FileSt) (hanon : Nat.land flags MAP_ANONYMOUS = 0)
    (hf : env.fileOf fd = .ok f)
    (hok : (sysMmap env addr length prot flags fd 0).ret.isOk = true) :
    (sysMmap env addr length prot flags fd 0).file.map FileSt.pos
      = some (f.pos + (sysMmap env addr length prot flags fd 0).written) := by
  obtain ⟨h1, h2⟩ := sysMmap_file_shape env addr length prot flags fd 0 f hanon hf hok
  rw [h1, h2]
  show some (mmapFileRead f length 0).1.pos = some (f.pos + (mmapFileRead f length 0).2)
  rw [mmapFileRead_zero, readLoop_pos]

/-- C10 witness: the `offset = 0` call on the cursor-7 file reads 50 bytes and
leaves the cursor at `7 + 50`. -/
theorem C10_witness :
    (Nat.land 2 MAP_ANONYMOUS = 0) ∧
    (sysMmap testEnv 0 50 3 2 3 0).file.map FileSt.pos
      = some (7 + (sysMmap testEnv 0 50 3 2 3 0).written) :=
  ⟨by decide,
   C10_cursor_advances testEnv 0 50 3 2 3 ⟨100, 7⟩ (by decide) (by decide) (by decide)⟩

end BumpVerify
